import Mathlib

/-!
A verification development for the Agentic-Memory repository.

The definitions below are shallow embeddings of the Python sources:
`src/memory/working.py`, `src/memory/procedural.py`, `src/memory/semantic.py`,
`src/memory/episodic.py` and `src/agent/core.py`.  Stateful classes become
structures with explicit state passing; `async` methods become plain
functions (their awaited results), except where a missing `await` in the
source is itself the point and is modelled explicitly; Python exceptions
become `Except`; the LLM and the vector store are opaque parameters.
-/

/-! ## Messages (langchain message objects, src/memory/working.py) -/

/-- The role of a langchain message: `SystemMessage`, `HumanMessage`,
`AIMessage`, or any other `BaseMessage` subclass (tool/function/chat). -/
inductive Role where
  | system
  | user
  | ai
  | other
deriving DecidableEq, Repr

/-- A langchain `BaseMessage`: a role together with an immutable text payload. -/
structure Message where
  role : Role
  content : String
deriving DecidableEq, Repr

/-- Number of messages of role `r` in a list (the "true count obtained by
scanning the stored message list"). -/
def countRole (r : Role) (l : List Message) : Nat :=
  l.countP (fun m => m.role == r)

/-! ## WorkingMemory (src/memory/working.py)

The class keeps `self._messages` plus the `self._metadata` counters
`total_messages`, `system_prompts`, `user_messages`, `ai_messages`.
Counters are Python ints, so they are modelled as `Int` (they may be
decremented). -/

structure WorkingMemory where
  messages : List Message
  max_size : Option Nat
  total_messages : Int
  system_prompts : Int
  user_messages : Int
  ai_messages : Int
deriving DecidableEq, Repr

/-- `WorkingMemory.__init__`: empty message list, zeroed counters. -/
def WorkingMemory.init (max_size : Option Nat) : WorkingMemory :=
  { messages := []
    max_size := max_size
    total_messages := 0
    system_prompts := 0
    user_messages := 0
    ai_messages := 0 }

/-- `WorkingMemory._update_metadata`: increment `total_messages` and the
counter of the message's role (nothing for other `BaseMessage` kinds). -/
def WorkingMemory.update_metadata (wm : WorkingMemory) (m : Message) : WorkingMemory :=
  { wm with
    total_messages := wm.total_messages + 1
    system_prompts := wm.system_prompts + (if m.role = .system then 1 else 0)
    user_messages := wm.user_messages + (if m.role = .user then 1 else 0)
    ai_messages := wm.ai_messages + (if m.role = .ai then 1 else 0) }

/-- `WorkingMemory.store`: append the message, update the metadata, then
`if self.max_size and len(self._messages) > self.max_size:` keep only the
last `max_size` entries (`self._messages[-self.max_size:]`).  Note the
truthiness test: `max_size` of `None` or `0` disables trimming, and the
trim does not touch the metadata counters. -/
def WorkingMemory.store (wm : WorkingMemory) (m : Message) : WorkingMemory :=
  let wm1 := { wm with messages := wm.messages ++ [m] }
  let wm2 := wm1.update_metadata m
  match wm2.max_size with
  | some c =>
      if c ≠ 0 ∧ wm2.messages.length > c then
        { wm2 with messages := wm2.messages.drop (wm2.messages.length - c) }
      else wm2
  | none => wm2

/-- `WorkingMemory.store_user`: store a `HumanMessage`. -/
def WorkingMemory.store_user (wm : WorkingMemory) (content : String) : WorkingMemory :=
  wm.store { role := .user, content := content }

/-- `WorkingMemory.store_ai`: store an `AIMessage`. -/
def WorkingMemory.store_ai (wm : WorkingMemory) (content : String) : WorkingMemory :=
  wm.store { role := .ai, content := content }

/-- `WorkingMemory.store_system`: store a `SystemMessage`. -/
def WorkingMemory.store_system (wm : WorkingMemory) (content : String) : WorkingMemory :=
  wm.store { role := .system, content := content }

/-- `WorkingMemory.store_semantic`: store the semantic context as a
`HumanMessage` with the `[SEMANTIC CONTEXT]` banner. -/
def WorkingMemory.store_semantic (wm : WorkingMemory) (content : String) : WorkingMemory :=
  wm.store { role := .user, content := "[SEMANTIC CONTEXT]\n" ++ content }

/-- `WorkingMemory.clear`: drop all messages and reset the counters. -/
def WorkingMemory.clear (wm : WorkingMemory) : WorkingMemory :=
  { wm with
    messages := []
    total_messages := 0
    system_prompts := 0
    user_messages := 0
    ai_messages := 0 }

/-- `WorkingMemory.remove_last`: `if n > 0 and n <= len(self._messages)`,
truncate the last `n` messages and decrement the counters once per removed
message; otherwise do nothing. -/
def WorkingMemory.remove_last (wm : WorkingMemory) (n : Nat) : WorkingMemory :=
  if 0 < n ∧ n ≤ wm.messages.length then
    let removed := wm.messages.drop (wm.messages.length - n)
    { wm with
      messages := wm.messages.take (wm.messages.length - n)
      total_messages := wm.total_messages - removed.length
      system_prompts := wm.system_prompts - countRole .system removed
      user_messages := wm.user_messages - countRole .user removed
      ai_messages := wm.ai_messages - countRole .ai removed }
  else wm

/-- The type-filter step of `WorkingMemory.retrieve`: `kwargs.get('type')`
compared lowercased against "system"/"user"/"ai"; any other (or absent)
value leaves the list unfiltered. -/
def WorkingMemory.typeFiltered (wm : WorkingMemory) (msg_type : Option String) : List Message :=
  match msg_type with
  | some t =>
      let tl := String.mk (t.data.map Char.toLower)
      if tl = "system" then wm.messages.filter (fun m => m.role == .system)
      else if tl = "user" then wm.messages.filter (fun m => m.role == .user)
      else if tl = "ai" then wm.messages.filter (fun m => m.role == .ai)
      else wm.messages
  | none => wm.messages

/-- `WorkingMemory.retrieve`: filter by type, then `if limit:` take the last
`limit` messages (`messages[-limit:]`).  The truthiness test means a limit
of `None` or `0` applies no limit at all. -/
def WorkingMemory.retrieve (wm : WorkingMemory) (msg_type : Option String)
    (limit : Option Nat) : List Message :=
  let messages := wm.typeFiltered msg_type
  match limit with
  | some n => if n ≠ 0 then messages.drop (messages.length - n) else messages
  | none => messages

/-- `WorkingMemory.get_messages` (awaited): a copy of the message list. -/
def WorkingMemory.get_messages (wm : WorkingMemory) : List Message :=
  wm.messages

/-! ### Operation sequences on working memory (for the invariants) -/

/-- One mutating operation on `WorkingMemory`, covering every appending
entry point together with `clear` and `remove_last`. -/
inductive WMOp where
  | store (m : Message)
  | store_user (s : String)
  | store_ai (s : String)
  | store_system (s : String)
  | store_semantic (s : String)
  | clear
  | remove_last (n : Nat)
deriving DecidableEq, Repr

/-- The message a `WMOp` appends via `store`, if it is an appending
operation. -/
def WMOp.message : WMOp → Option Message
  | .store m => some m
  | .store_user s => some { role := .user, content := s }
  | .store_ai s => some { role := .ai, content := s }
  | .store_system s => some { role := .system, content := s }
  | .store_semantic s => some { role := .user, content := "[SEMANTIC CONTEXT]\n" ++ s }
  | .clear => none
  | .remove_last _ => none

/-- Apply one operation. -/
def WorkingMemory.applyOp (wm : WorkingMemory) : WMOp → WorkingMemory
  | .store m => wm.store m
  | .store_user s => wm.store_user s
  | .store_ai s => wm.store_ai s
  | .store_system s => wm.store_system s
  | .store_semantic s => wm.store_semantic s
  | .clear => wm.clear
  | .remove_last n => wm.remove_last n

/-- Apply a sequence of operations, left to right. -/
def WorkingMemory.applyOps (wm : WorkingMemory) (ops : List WMOp) : WorkingMemory :=
  ops.foldl WorkingMemory.applyOp wm

/-- Apply a sequence of plain `store` calls, left to right. -/
def WorkingMemory.applyStores (wm : WorkingMemory) (msgs : List Message) : WorkingMemory :=
  msgs.foldl WorkingMemory.store wm

/-- Does storing `m` into `wm` trigger the trim branch of `store`? -/
def WorkingMemory.storeWouldTrim (wm : WorkingMemory) (_m : Message) : Bool :=
  match wm.max_size with
  | some c => decide (c ≠ 0 ∧ wm.messages.length + 1 > c)
  | none => false

/-- `trimFree wm ops` holds when no `store` performed while running `ops`
from `wm` triggers the eviction trim. -/
def WorkingMemory.trimFree : WorkingMemory → List WMOp → Bool
  | _, [] => true
  | wm, op :: ops =>
      (match op.message with
       | some m => !wm.storeWouldTrim m
       | none => true) && (wm.applyOp op).trimFree ops

/-- The counter-consistency invariant: each maintained counter equals the
true count computed by scanning the stored message list. -/
def WorkingMemory.consistent (wm : WorkingMemory) : Prop :=
  wm.total_messages = wm.messages.length ∧
  wm.system_prompts = countRole .system wm.messages ∧
  wm.user_messages = countRole .user wm.messages ∧
  wm.ai_messages = countRole .ai wm.messages

instance (wm : WorkingMemory) : Decidable wm.consistent := by
  unfold WorkingMemory.consistent
  infer_instance

/-! ## Char-level helpers for Python string operations

`str.strip`, `str.split('\n')`, the `^\d+\.\s*` regex and `' - '`
splitting are modelled over `List Char` (`String.data`), so that every
definition evaluates inside the kernel. -/

/-- Drop a trailing run of whitespace (the right half of `str.strip()`). -/
def dropTrailWS : List Char → List Char
  | [] => []
  | c :: cs =>
      match dropTrailWS cs with
      | [] => if c.isWhitespace then [] else [c]
      | r => c :: r

/-- Python `str.strip()` on character lists: remove leading and trailing
whitespace. -/
def pyStrip (cs : List Char) : List Char :=
  dropTrailWS (cs.dropWhile Char.isWhitespace)

/-- Python `str.split(sep)` for a one-character separator: split into the
(possibly empty) pieces between occurrences of `sep`. -/
def splitOnChar (sep : Char) : List Char → List (List Char)
  | [] => [[]]
  | c :: cs =>
      match splitOnChar sep cs with
      | [] => [[]]
      | l :: ls => if c = sep then [] :: l :: ls else (c :: l) :: ls

/-- Does `cs` start with `pre`? -/
def startsWithChars : List Char → List Char → Bool
  | [], _ => true
  | _ :: _, [] => false
  | p :: ps, c :: cs => p = c && startsWithChars ps cs

/-- Split at the first occurrence of `sep` (Python `sep in line` followed by
`line.split(sep, 1)`); `none` when `sep` does not occur. -/
def splitFirst (sep : List Char) : List Char → Option (List Char × List Char)
  | [] => if sep = [] then some ([], []) else none
  | c :: cs =>
      if startsWithChars sep (c :: cs) then some ([], (c :: cs).drop sep.length)
      else
        match splitFirst sep cs with
        | some (a, b) => some (c :: a, b)
        | none => none

/-- The regex substitution `re.sub(r'^\d+\.\s*', '', line)`: when the line
starts with one or more digits followed by a literal dot, remove them and
any whitespace that follows; otherwise leave the line unchanged. -/
def stripNumbering (cs : List Char) : List Char :=
  let ds := cs.takeWhile Char.isDigit
  let rest := cs.dropWhile Char.isDigit
  if ds = [] then cs
  else
    match rest with
    | '.' :: rest2 => rest2.dropWhile Char.isWhitespace
    | _ => cs

/-! ## ProceduralMemory (src/memory/procedural.py) -/

/-- A `ProceduralRule` (src/core/models/memory.py): 1-based index,
instruction, rationale, optional category.  (The `created_at` timestamp is
outside the embedding.) -/
structure ProceduralRule where
  index : Nat
  instruction : String
  rationale : String
  category : Option String
deriving DecidableEq, Repr

/-- The state of `ProceduralMemory`: the in-memory rule list and the
contents last written to the rule file (`none` when nothing has been
written during the modelled steps). -/
structure ProceduralMemory where
  rules : List ProceduralRule
  file : Option String
deriving DecidableEq, Repr

/-- The loop body of `ProceduralMemory._parse_rules`: strip each line, skip
blank lines, strip leading numbering, split instruction from rationale on
the first `' - '`, and append with `index = len(rules) + 1`. -/
def parseLoop : List (List Char) → List ProceduralRule → List ProceduralRule
  | [], rules => rules
  | line :: rest, rules =>
      let l := pyStrip line
      if l = [] then parseLoop rest rules
      else
        let l2 := stripNumbering l
        let pr :=
          match splitFirst (" - ".data) l2 with
          | some ab => ab
          | none => (l2, [])
        parseLoop rest (rules ++
          [{ index := rules.length + 1
             instruction := String.mk (pyStrip pr.1)
             rationale := String.mk (pyStrip pr.2)
             category := none }])

/-- `ProceduralMemory._parse_rules(text)`: `text.strip().split('\n')`, then
the line loop above starting from the empty rule list. -/
def parseRules (text : String) : List ProceduralRule :=
  parseLoop (splitOnChar '\n' (pyStrip text.data)) []

/-- The text `ProceduralMemory._save_rules` writes: one
`"{index}. {instruction}"` line per rule, with `" - {rationale}"` appended
when the rationale is non-empty, joined by newlines. -/
def renderRules (rules : List ProceduralRule) : String :=
  String.intercalate "\n" (rules.map fun r =>
    toString r.index ++ ". " ++ r.instruction ++
      (if r.rationale ≠ "" then " - " ++ r.rationale else ""))

/-- `ProceduralMemory._save_rules`: overwrite the rule file with the
rendered rule list. -/
def ProceduralMemory.save_rules (pm : ProceduralMemory) : ProceduralMemory :=
  { pm with file := some (renderRules pm.rules) }

/-- `ProceduralMemory.update`, given the text the completion capability
returned (`result.content`): strip it, parse it, and only when at least one
rule was parsed replace the rule set by the first 10 parsed rules and
persist; otherwise leave state and file untouched. -/
def ProceduralMemory.update (pm : ProceduralMemory) (responseContent : String) :
    ProceduralMemory :=
  let new_rules := parseLoop (splitOnChar '\n' (pyStrip (pyStrip responseContent.data))) []
  if new_rules = [] then pm
  else ProceduralMemory.save_rules { pm with rules := new_rules.take 10 }

/-- `ProceduralMemory.store`: append the given rule unchanged and persist. -/
def ProceduralMemory.store_rule (pm : ProceduralMemory) (r : ProceduralRule) :
    ProceduralMemory :=
  ProceduralMemory.save_rules { pm with rules := pm.rules ++ [r] }

/-- `ProceduralMemory.add_rule`: append a rule with
`index = len(self.rules) + 1` and persist. -/
def ProceduralMemory.add_rule (pm : ProceduralMemory) (instruction rationale : String)
    (category : Option String) : ProceduralMemory :=
  ProceduralMemory.save_rules
    { pm with rules := pm.rules ++
        [{ index := pm.rules.length + 1
           instruction := instruction
           rationale := rationale
           category := category }] }

/-- Re-assign indices `n, n+1, ...` to a rule list (the re-indexing loop of
`remove_rule`, which enumerates from 1). -/
def reindexFrom (n : Nat) : List ProceduralRule → List ProceduralRule
  | [] => []
  | r :: rs => { r with index := n } :: reindexFrom (n + 1) rs

/-- `ProceduralMemory.remove_rule(index)`: when `0 <= index - 1 < len(rules)`
pop that rule, re-index the remaining rules from 1, and persist; otherwise
do nothing.  The argument is a Python int, so it is modelled as `Int`. -/
def ProceduralMemory.remove_rule (pm : ProceduralMemory) (index : Int) :
    ProceduralMemory :=
  if 0 ≤ index - 1 ∧ index - 1 < (pm.rules.length : Int) then
    ProceduralMemory.save_rules
      { pm with rules := reindexFrom 1 (pm.rules.eraseIdx (index - 1).toNat) }
  else pm

/-! ## SemanticMemory (src/memory/semantic.py) -/

/-- A `SemanticChunk` (src/core/models/memory.py), without the free-form
metadata mapping. -/
structure SemanticChunk where
  id : String
  content : String
  source : String
  chunk_index : Nat
deriving DecidableEq, Repr

/-- The loop of `SemanticMemory._format_chunks` starting at enumerate index
`i`: strip each object's chunk text, skip it when it strips to empty, and
otherwise emit `"\nCHUNK {i+1}:\n{content}"`.  The enumerate index advances
over every object, including the skipped ones. -/
def formatChunksLoop : Nat → List String → List String
  | _, [] => []
  | i, c :: cs =>
      let content := String.mk (pyStrip c.data)
      if content = "" then formatChunksLoop (i + 1) cs
      else ("\nCHUNK " ++ toString (i + 1) ++ ":\n" ++ content) :: formatChunksLoop (i + 1) cs

/-- `SemanticMemory._format_chunks`, applied to the `chunk` property of each
returned object in order: `"".join(chunks) if chunks else ""`. -/
def formatChunks (contents : List String) : String :=
  String.join (formatChunksLoop 0 contents)

/-- `SemanticMemory.retrieve`, given the chunk texts the hybrid search
returned (in its order): format them into one block. -/
def semanticRetrieve (contents : List String) : String :=
  formatChunks contents

/-- The formatting the C7 claim describes, taken from its words: the
concatenation of the chunk contents, each chunk prefixed with a 1-based
ordinal label `CHUNK 1, CHUNK 2, ...` in sequence. -/
def claimFormatChunks (contents : List String) : String :=
  String.join ((contents.enum).map fun p =>
    "\nCHUNK " ++ toString (p.1 + 1) ++ ":\n" ++ p.2)

/-- `SemanticMemory.get_by_source`, given the chunks the store returned for
the requested source (in the store's order): `chunks.sort(key=lambda x:
x.chunk_index)` — a stable sort ascending by chunk index, modelled by
insertion sort on the same key. -/
def getBySource (results : List SemanticChunk) : List SemanticChunk :=
  List.insertionSort (fun a b => a.chunk_index ≤ b.chunk_index) results

instance : IsTotal SemanticChunk (fun a b => a.chunk_index ≤ b.chunk_index) :=
  ⟨fun a b => Nat.le_total a.chunk_index b.chunk_index⟩

instance : IsTrans SemanticChunk (fun a b => a.chunk_index ≤ b.chunk_index) :=
  ⟨fun _ _ _ hab hbc => Nat.le_trans hab hbc⟩

instance : IsAntisymm SemanticChunk (fun a b => a.chunk_index < b.chunk_index) :=
  ⟨fun _ _ hab hba => absurd (Nat.lt_trans hab hba) (Nat.lt_irrefl _)⟩

/-! ## EpisodicMemory (src/memory/episodic.py) -/

/-- An `EpisodicMemoryEntry` as built by `EpisodicMemory.store` (identity,
timestamps and the access counter are assigned elsewhere and not involved
in the claims). -/
structure EpisodicMemoryEntry where
  conversation : String
  context_tags : List String
  conversation_summary : String
  what_worked : String
  what_to_avoid : String
deriving DecidableEq, Repr

/-- The JSON object the reflection chain returns, as far as `store` reads
it: each of the four expected keys is either present with a well-typed
value (`some`) or absent from the object (`none`, the case
`reflection.get(key, default)` falls back on). -/
structure Reflection where
  context_tags : Option (List String)
  conversation_summary : Option String
  what_worked : Option String
  what_to_avoid : Option String
deriving DecidableEq, Repr

/-- `EpisodicMemory._format_conversation`: `"ROLE: content"` lines with
system messages excluded; `HUMAN` for `msg.type == "human"`, `AI` for
everything else. -/
def formatConversation (messages : List Message) : String :=
  String.intercalate "\n"
    ((messages.filter (fun m => !(m.role == .system))).map fun m =>
      (if m.role == .user then "HUMAN" else "AI") ++ ": " ++ m.content)

/-- The entry `EpisodicMemory.store` builds from the reflection output:
every missing key independently defaults (`[]` for `context_tags`, `""`
for the three text fields). -/
def episodicEntry (conversation : String) (r : Reflection) : EpisodicMemoryEntry :=
  { conversation := conversation
    context_tags := r.context_tags.getD []
    conversation_summary := r.conversation_summary.getD ""
    what_worked := r.what_worked.getD ""
    what_to_avoid := r.what_to_avoid.getD "" }

/-- `EpisodicMemory.store`: format the conversation, run the reflection
chain (`complete`), build the entry with per-field defaults, persist it
(`persist`, the `collection.data.insert` call), and return.  A failing
completion call or persistence write propagates as an error. -/
def episodicStore (complete : String → Except String Reflection)
    (persist : EpisodicMemoryEntry → Except String Unit)
    (messages : List Message) : Except String EpisodicMemoryEntry := do
  let conversation := formatConversation messages
  let reflection ← complete conversation
  let entry := episodicEntry conversation reflection
  let _ ← persist entry
  pure entry

/-! ## MemoryAgent.process_message (src/agent/core.py)

`process_message` retrieves from the three long-term tiers, appends a
system prompt, the optional semantic context and the user message to
working memory, and then runs
`self.llm.ainvoke(self.working_memory.get_messages())`.
`WorkingMemory.get_messages` is an `async def`, and the call site does not
`await` it, so the value handed to `ainvoke` is an un-awaited coroutine
object, not the message list.  `BaseChatModel.ainvoke` converts its input
before generating and rejects anything that is not a prompt value, a
string, or a sequence of messages. -/

/-- What `process_message` passes to the completion capability: either a
materialized message sequence (what `await ...get_messages()` would have
produced) or a coroutine object (what `...get_messages()` without `await`
produces). -/
inductive LMInput where
  | messages (ms : List Message)
  | coroutine
deriving DecidableEq, Repr

/-- The error message of the langchain input conversion when it rejects a
non-message input. -/
def invalidInputMsg : String :=
  "Invalid input type. Must be a PromptValue, str, or list of BaseMessages."

/-- `BaseChatModel._convert_input`: accept a message sequence, reject a
coroutine object. -/
def convertInput : LMInput → Except String (List Message)
  | .messages ms => .ok ms
  | .coroutine => .error invalidInputMsg

/-- `llm.ainvoke`: convert the input, then run the opaque completion
capability on the message sequence. -/
def llmAInvoke (complete : List Message → String) (input : LMInput) :
    Except String String :=
  (convertInput input).map complete

/-- The value of the expression `self.working_memory.get_messages()` at
src/agent/core.py:60: the method is `async def`, and without `await` the
expression denotes a coroutine object, not the message list. -/
def WorkingMemory.get_messages_unawaited (_wm : WorkingMemory) : LMInput :=
  .coroutine

/-- Modelled from the spec: `MemoryAgent._create_system_prompt` is invoked
at src/agent/core.py:51 but absent from the sources here; per the spec it
assembles the episodic reflection fields (if any) and the procedural rule
text into the single system-context message.  Its exact wording is opaque;
only its type and determinism matter to the claims. -/
def createSystemPrompt (episodic : Option EpisodicMemoryEntry) (procedural : String) :
    String :=
  (match episodic with
   | some e => e.conversation_summary ++ "\n" ++ e.what_worked ++ "\n" ++ e.what_to_avoid ++ "\n"
   | none => "") ++ procedural

/-- `MemoryAgent.process_message`, given the three retrieval results and
the opaque completion capability, acting on the agent's working memory.
It returns the final working memory together with the outcome of the turn:
the reply text, or the error the un-awaited `get_messages()` call provokes
inside `llm.ainvoke`.  (`self._update_state` touches only the transient
agent state, not the observables modelled here.) -/
def processMessage (complete : List Message → String)
    (episodic : Option EpisodicMemoryEntry) (semantic procedural : String)
    (userInput : String) (wm : WorkingMemory) : WorkingMemory × Except String String :=
  let system_prompt := createSystemPrompt episodic procedural
  let wm1 := wm.store_system system_prompt
  let wm2 := if semantic ≠ "" then wm1.store_semantic semantic else wm1
  let wm3 := wm2.store_user userInput
  match llmAInvoke complete wm3.get_messages_unawaited with
  | .ok reply => (wm3.store_ai reply, .ok reply)
  | .error e => (wm3, .error e)

/-- C2 needs: the contiguity invariant of a procedural rule list — every
rule's 1-based `index` equals its position plus one. -/
def contiguous (rules : List ProceduralRule) : Prop :=
  ∀ (i : Nat) (h : i < rules.length), (rules.get ⟨i, h⟩).index = i + 1

/-! # Theorems -/

/-! ## Working-memory helper lemmas -/

theorem countRole_append (r : Role) (l₁ l₂ : List Message) :
    countRole r (l₁ ++ l₂) = countRole r l₁ + countRole r l₂ :=
  List.countP_append _ _ _

theorem countRole_singleton (r : Role) (m : Message) :
    countRole r [m] = if m.role = r then 1 else 0 := by
  simp [countRole, List.countP_singleton]

theorem store_of_no_trim (wm : WorkingMemory) (m : Message)
    (h : wm.storeWouldTrim m = false) :
    wm.store m =
      { messages := wm.messages ++ [m]
        max_size := wm.max_size
        total_messages := wm.total_messages + 1
        system_prompts := wm.system_prompts + (if m.role = .system then 1 else 0)
        user_messages := wm.user_messages + (if m.role = .user then 1 else 0)
        ai_messages := wm.ai_messages + (if m.role = .ai then 1 else 0) } := by
  unfold WorkingMemory.storeWouldTrim at h
  unfold WorkingMemory.store WorkingMemory.update_metadata
  cases hms : wm.max_size with
  | none => simp
  | some c =>
      rw [hms] at h
      simp only [decide_eq_false_iff_not] at h
      simp only []
      rw [if_neg]
      simpa [List.length_append] using h

theorem consistent_store (wm : WorkingMemory) (m : Message)
    (hc : wm.consistent) (h : wm.storeWouldTrim m = false) :
    (wm.store m).consistent := by
  obtain ⟨h1, h2, h3, h4⟩ := hc
  rw [store_of_no_trim wm m h]
  refine ⟨?_, ?_, ?_, ?_⟩ <;>
    simp only [WorkingMemory.consistent, countRole_append, countRole_singleton,
      List.length_append, h1, h2, h3, h4] <;>
    cases hm : m.role <;> simp [hm] <;> omega

theorem consistent_clear (wm : WorkingMemory) : wm.clear.consistent := by
  simp [WorkingMemory.clear, WorkingMemory.consistent, countRole]

theorem consistent_remove_last (wm : WorkingMemory) (n : Nat)
    (hc : wm.consistent) : (wm.remove_last n).consistent := by
  obtain ⟨h1, h2, h3, h4⟩ := hc
  unfold WorkingMemory.remove_last
  split
  case isFalse => exact ⟨h1, h2, h3, h4⟩
  case isTrue hcond =>
    have hsplit := List.take_append_drop (wm.messages.length - n) wm.messages
    have hlen : (wm.messages.drop (wm.messages.length - n)).length = n := by
      rw [List.length_drop]; omega
    have htot : countRole .system (wm.messages.take (wm.messages.length - n)) +
        countRole .system (wm.messages.drop (wm.messages.length - n)) =
        countRole .system wm.messages := by
      rw [← countRole_append, hsplit]
    have hu : countRole .user (wm.messages.take (wm.messages.length - n)) +
        countRole .user (wm.messages.drop (wm.messages.length - n)) =
        countRole .user wm.messages := by
      rw [← countRole_append, hsplit]
    have ha : countRole .ai (wm.messages.take (wm.messages.length - n)) +
        countRole .ai (wm.messages.drop (wm.messages.length - n)) =
        countRole .ai wm.messages := by
      rw [← countRole_append, hsplit]
    refine ⟨?_, ?_, ?_, ?_⟩ <;>
      simp only [WorkingMemory.consistent, List.length_take, hlen, h1, h2, h3, h4] <;>
      push_cast <;> omega

theorem consistent_applyOp (wm : WorkingMemory) (op : WMOp)
    (hc : wm.consistent)
    (h : (match op.message with
          | some m => !wm.storeWouldTrim m
          | none => true) = true) :
    (wm.applyOp op).consistent := by
  cases op with
  | store m =>
      simp only [WMOp.message, Bool.not_eq_true'] at h
      exact consistent_store wm m hc h
  | store_user s =>
      simp only [WMOp.message, Bool.not_eq_true'] at h
      exact consistent_store wm _ hc h
  | store_ai s =>
      simp only [WMOp.message, Bool.not_eq_true'] at h
      exact consistent_store wm _ hc h
  | store_system s =>
      simp only [WMOp.message, Bool.not_eq_true'] at h
      exact consistent_store wm _ hc h
  | store_semantic s =>
      simp only [WMOp.message, Bool.not_eq_true'] at h
      exact consistent_store wm _ hc h
  | clear => exact consistent_clear wm
  | remove_last n => exact consistent_remove_last wm n hc

/-- C2 (amended): along any operation sequence in which no `store` triggers
the eviction trim, the maintained counters stay equal to the true scan
counts. -/
theorem wm_counter_consistency_no_eviction (ops : List WMOp) :
    ∀ (wm : WorkingMemory), wm.consistent → wm.trimFree ops = true →
      (wm.applyOps ops).consistent := by
  induction ops with
  | nil => intro wm hc _; exact hc
  | cons op ops ih =>
      intro wm hc ht
      unfold WorkingMemory.trimFree at ht
      rw [Bool.and_eq_true] at ht
      obtain ⟨h1, h2⟩ := ht
      have hstep : (wm.applyOp op).consistent := consistent_applyOp wm op hc h1
      simpa [WorkingMemory.applyOps, List.foldl_cons] using ih (wm.applyOp op) hstep h2

/-- C2 witness: a concrete eviction-free run through every kind of
operation keeps the counters consistent. -/
theorem wm_counter_consistency_no_eviction_witness :
    (WorkingMemory.init (some 50)).consistent ∧
    (WorkingMemory.init (some 50)).trimFree
      [.store_system "s", .store_user "u", .store_ai "a", .remove_last 1,
       .store_semantic "ctx", .clear, .store_user "x"] = true ∧
    ((WorkingMemory.init (some 50)).applyOps
      [.store_system "s", .store_user "u", .store_ai "a", .remove_last 1,
       .store_semantic "ctx", .clear, .store_user "x"]).consistent :=
  ⟨by decide, by decide,
    wm_counter_consistency_no_eviction
      [.store_system "s", .store_user "u", .store_ai "a", .remove_last 1,
       .store_semantic "ctx", .clear, .store_user "x"]
      (WorkingMemory.init (some 50)) (by decide) (by decide)⟩

/-- C2 counterexample: with capacity 1, two appends evict the first message
without decrementing the counters, so the maintained `user_messages` is 2
while the scan of the stored list finds only 1; the claimed invariant fails
as stated. -/
theorem wm_counter_consistency_counterexample :
    ¬ ((WorkingMemory.init (some 1)).applyOps
        [.store_user "a", .store_user "b"]).consistent ∧
    ((WorkingMemory.init (some 1)).applyOps
        [.store_user "a", .store_user "b"]).user_messages = 2 ∧
    countRole .user ((WorkingMemory.init (some 1)).applyOps
        [.store_user "a", .store_user "b"]).messages = 1 :=
  ⟨by decide, by decide, by decide⟩

/-! ## Bounded-log lemmas -/

theorem drop_drop_append {α : Type} (X ms : List α) (C : Nat) :
    ((X.drop (X.length - C)) ++ ms).drop (X.length - (X.length - C) + ms.length - C) =
      (X ++ ms).drop (X.length + ms.length - C) := by
  have h1 : ∀ n : Nat, ((X.drop (X.length - C)) ++ ms).drop n =
      (X.drop (X.length - C)).drop n ++ ms.drop (n - (X.drop (X.length - C)).length) :=
    fun _ => List.drop_append_eq_append_drop
  have h2 : ∀ n : Nat, (X ++ ms).drop n = X.drop n ++ ms.drop (n - X.length) :=
    fun _ => List.drop_append_eq_append_drop
  rw [h1, List.drop_drop, h2]
  congr 2 <;> (try simp only [List.length_drop]) <;> omega

theorem store_messages_cap (wm : WorkingMemory) (m : Message) (C : Nat)
    (h : wm.max_size = some C) (hC : 1 ≤ C) :
    (wm.store m).messages =
      (wm.messages ++ [m]).drop ((wm.messages ++ [m]).length - C) ∧
    (wm.store m).max_size = some C := by
  unfold WorkingMemory.store WorkingMemory.update_metadata
  simp only [h]
  by_cases hcond : C ≠ 0 ∧ (wm.messages ++ [m]).length > C
  · rw [if_pos hcond]
    simp
  · rw [if_neg hcond]
    push_neg at hcond
    have hle : wm.messages.length + 1 ≤ C := by
      have h2 := hcond (by omega)
      simpa using h2
    simp [show wm.messages.length + 1 - C = 0 from Nat.sub_eq_zero_of_le hle]

theorem applyStores_messages (C : Nat) (hC : 1 ≤ C) :
    ∀ (msgs : List Message) (wm : WorkingMemory), wm.max_size = some C →
      wm.messages.length ≤ C →
      (wm.applyStores msgs).messages =
        (wm.messages ++ msgs).drop (wm.messages.length + msgs.length - C) := by
  intro msgs
  induction msgs with
  | nil =>
      intro wm h hlen
      simp [WorkingMemory.applyStores, Nat.sub_eq_zero_of_le hlen]
  | cons m ms ih =>
      intro wm h hlen
      obtain ⟨hmsg, hmax⟩ := store_messages_cap wm m C h hC
      have hlen' : (wm.store m).messages.length ≤ C := by
        rw [hmsg]
        simp only [List.length_drop]
        omega
      have happly : (wm.applyStores (m :: ms)).messages =
          ((wm.store m).applyStores ms).messages := by
        simp [WorkingMemory.applyStores, List.foldl_cons]
      have hRHS : wm.messages ++ m :: ms = (wm.messages ++ [m]) ++ ms := by
        rw [List.append_assoc]; rfl
      rw [happly, ih (wm.store m) hmax hlen', hmsg, List.length_drop, hRHS,
        drop_drop_append]
      congr 1
      simp only [List.length_append, List.length_cons, List.length_nil]
      omega

/-- C3: for every capacity `C >= 1` and every sequence of `N` appends to an
initially empty working memory with `max_size = C`, the resulting message
list is exactly the last `min(N, C)` appended messages in their original
order (the oldest entries having been evicted first), and its length is
`min(N, C)`. -/
theorem wm_bounded_log (C : Nat) (hC : 1 ≤ C) (msgs : List Message) :
    ((WorkingMemory.init (some C)).applyStores msgs).messages =
      msgs.drop (msgs.length - C) ∧
    ((WorkingMemory.init (some C)).applyStores msgs).messages.length =
      min msgs.length C := by
  have h := applyStores_messages C hC msgs (WorkingMemory.init (some C)) rfl
    (by simp [WorkingMemory.init])
  have h' : ((WorkingMemory.init (some C)).applyStores msgs).messages =
      msgs.drop (msgs.length - C) := by
    simpa [WorkingMemory.init] using h
  refine ⟨h', ?_⟩
  rw [h', List.length_drop]
  omega

/-- C3 witness: the spec scenario — capacity 3, four appends — retains the
last three messages in order. -/
theorem wm_bounded_log_witness :
    1 ≤ 3 ∧
    (((WorkingMemory.init (some 3)).applyStores
        ([⟨Role.user, "a"⟩, ⟨Role.ai, "b"⟩, ⟨Role.user, "c"⟩, ⟨Role.ai, "d"⟩] :
          List Message)).messages =
      ([⟨Role.user, "a"⟩, ⟨Role.ai, "b"⟩, ⟨Role.user, "c"⟩, ⟨Role.ai, "d"⟩] :
          List Message).drop
        (([⟨Role.user, "a"⟩, ⟨Role.ai, "b"⟩, ⟨Role.user, "c"⟩, ⟨Role.ai, "d"⟩] :
          List Message).length - 3) ∧
     ((WorkingMemory.init (some 3)).applyStores
        ([⟨Role.user, "a"⟩, ⟨Role.ai, "b"⟩, ⟨Role.user, "c"⟩, ⟨Role.ai, "d"⟩] :
          List Message)).messages.length =
      min ([⟨Role.user, "a"⟩, ⟨Role.ai, "b"⟩, ⟨Role.user, "c"⟩, ⟨Role.ai, "d"⟩] :
          List Message).length 3) :=
  ⟨by decide,
    wm_bounded_log 3 (by decide)
      ([⟨Role.user, "a"⟩, ⟨Role.ai, "b"⟩, ⟨Role.user, "c"⟩, ⟨Role.ai, "d"⟩] :
        List Message)⟩

/-- C10: `retrieve` with a limit of 0 (or none) returns the entire,
optionally role-filtered, message sequence — the Python truthiness test
treats a zero limit as no limit — while a non-zero limit returns the last
`limit` entries of the filtered sequence. -/
theorem wm_retrieve_zero_limit (wm : WorkingMemory) (msg_type : Option String) (k : Nat) :
    wm.retrieve msg_type (some 0) = wm.typeFiltered msg_type ∧
    wm.retrieve msg_type none = wm.typeFiltered msg_type ∧
    wm.retrieve msg_type (some (k + 1)) =
      (wm.typeFiltered msg_type).drop ((wm.typeFiltered msg_type).length - (k + 1)) := by
  refine ⟨?_, rfl, ?_⟩ <;> simp [WorkingMemory.retrieve]

/-! ## Procedural-memory lemmas -/

theorem dropTrailWS_cons (c : Char) (cs : List Char) :
    dropTrailWS (c :: cs) =
      match dropTrailWS cs with
      | [] => if c.isWhitespace then [] else [c]
      | r => c :: r := rfl

theorem dropTrailWS_idem (l : List Char) : dropTrailWS (dropTrailWS l) = dropTrailWS l := by
  induction l with
  | nil => rfl
  | cons c cs ih =>
      rw [dropTrailWS_cons]
      cases h : dropTrailWS cs with
      | nil =>
          by_cases hc : c.isWhitespace
          · rw [if_pos hc]
            rfl
          · rw [if_neg hc, dropTrailWS_cons]
            simp [hc, dropTrailWS]
      | cons r rs =>
          have hfix : dropTrailWS (r :: rs) = r :: rs := by
            rw [← h, ih]
          rw [dropTrailWS_cons, hfix]

theorem dropWhile_dropTrailWS (l : List Char)
    (h : l.dropWhile Char.isWhitespace = l) :
    (dropTrailWS l).dropWhile Char.isWhitespace = dropTrailWS l := by
  cases l with
  | nil => rfl
  | cons c cs =>
      have hc : c.isWhitespace = false := by
        by_contra hcc
        rw [Bool.not_eq_false] at hcc
        rw [List.dropWhile_cons, if_pos hcc] at h
        have hsub : (cs.dropWhile Char.isWhitespace).Sublist cs :=
          List.dropWhile_sublist Char.isWhitespace
        have hlen := hsub.length_le
        have hcg := congrArg List.length h
        simp at hcg
        omega
      rw [dropTrailWS_cons]
      cases hd : dropTrailWS cs with
      | nil =>
          rw [if_neg (by simp [hc])]
          simp [List.dropWhile_cons, hc]
      | cons r rs => simp [List.dropWhile_cons, hc]

theorem pyStrip_idem (l : List Char) : pyStrip (pyStrip l) = pyStrip l := by
  unfold pyStrip
  rw [dropWhile_dropTrailWS _ (List.dropWhile_idempotent _ _), dropTrailWS_idem]

/-- The double strip performed along `ProceduralMemory.update`
(`result.content.strip()` followed by the strip inside `_parse_rules`)
parses to exactly `parseRules` of the raw response text. -/
theorem update_parse_eq (resp : String) :
    parseLoop (splitOnChar '\n' (pyStrip (pyStrip resp.data))) [] = parseRules resp := by
  rw [pyStrip_idem]
  rfl

theorem contiguous_nil : contiguous [] := by
  intro i h
  simp at h

theorem contiguous_append (rules : List ProceduralRule) (r : ProceduralRule)
    (hc : contiguous rules) (hr : r.index = rules.length + 1) :
    contiguous (rules ++ [r]) := by
  intro i h
  rcases Nat.lt_or_ge i rules.length with hi | hi
  · have he : (rules ++ [r]).get ⟨i, h⟩ = rules.get ⟨i, hi⟩ := by
      simp [List.getElem_append_left hi]
    rw [he]
    exact hc i hi
  · have hlen : i = rules.length := by
      simp only [List.length_append, List.length_cons, List.length_nil] at h
      omega
    subst hlen
    have he : (rules ++ [r]).get ⟨rules.length, h⟩ = r := by
      simp
    rw [he, hr]

theorem parseLoop_contiguous (lines : List (List Char)) :
    ∀ acc, contiguous acc → contiguous (parseLoop lines acc) := by
  induction lines with
  | nil => intro acc h; exact h
  | cons line rest ih =>
      intro acc h
      unfold parseLoop
      by_cases hl : pyStrip line = []
      · rw [if_pos hl]
        exact ih acc h
      · rw [if_neg hl]
        exact ih _ (contiguous_append _ _ h rfl)

theorem contiguous_take (rules : List ProceduralRule) (n : Nat)
    (h : contiguous rules) : contiguous (rules.take n) := by
  intro i hi
  have hi' : i < rules.length := by
    simp only [List.length_take] at hi
    omega
  have he : (rules.take n).get ⟨i, hi⟩ = rules.get ⟨i, hi'⟩ := by
    simp [List.getElem_take]
  rw [he]
  exact h i hi'

theorem reindexFrom_index (l : List ProceduralRule) :
    ∀ (n i : Nat) (h : i < (reindexFrom n l).length),
      ((reindexFrom n l).get ⟨i, h⟩).index = n + i := by
  induction l with
  | nil => intro n i h; simp [reindexFrom] at h
  | cons r rs ih =>
      intro n i h
      cases i with
      | zero => simp [reindexFrom]
      | succ j =>
          have hj : j < (reindexFrom (n + 1) rs).length := by
            simpa [reindexFrom] using h
          have he : (reindexFrom n (r :: rs)).get ⟨j + 1, h⟩ =
              (reindexFrom (n + 1) rs).get ⟨j, hj⟩ := by
            simp [reindexFrom]
          rw [he, ih (n + 1) j hj]
          omega

/-- C4: when the completion response parses to zero rules (for example an
empty or blank-lines-only response), `ProceduralMemory.update` is a silent
no-op: the rule list is unchanged, the file is not written, and no error is
raised (the function totally returns the unchanged state). -/
theorem proc_update_conservative (pm : ProceduralMemory) (resp : String)
    (h : parseRules resp = []) :
    pm.update resp = pm := by
  unfold ProceduralMemory.update
  rw [update_parse_eq, h]
  simp

/-- C4 witness: a whitespace-only completion response leaves a one-rule
state (and its unwritten file) exactly as it was. -/
theorem proc_update_conservative_witness :
    parseRules "\n  \n" = [] ∧
    ProceduralMemory.update
      { rules := [{ index := 1, instruction := "Be concise", rationale := "clarity",
                    category := none }], file := none } "\n  \n" =
      { rules := [{ index := 1, instruction := "Be concise", rationale := "clarity",
                    category := none }], file := none } :=
  ⟨by decide,
    proc_update_conservative
      { rules := [{ index := 1, instruction := "Be concise", rationale := "clarity",
                    category := none }], file := none } "\n  \n" (by decide)⟩

/-- C5: an `update` whose completion output parses to at least one rule
leaves at most 10 rules (the first 10 parsed lines) with contiguous 1-based
indices, and a `remove_rule` with a valid 1-based index leaves contiguous
1-based indices. -/
theorem proc_rule_cap_and_contiguous (pm pm' : ProceduralMemory) (resp : String)
    (index : Int) (hparse : parseRules resp ≠ []) (h1 : 1 ≤ index)
    (h2 : index ≤ (pm'.rules.length : Int)) :
    ((pm.update resp).rules.length ≤ 10 ∧ contiguous (pm.update resp).rules) ∧
    contiguous (pm'.remove_rule index).rules := by
  constructor
  · unfold ProceduralMemory.update
    rw [update_parse_eq, if_neg hparse]
    constructor
    · simp only [ProceduralMemory.save_rules, List.length_take]
      omega
    · exact contiguous_take _ _ (parseLoop_contiguous _ [] contiguous_nil)
  · unfold ProceduralMemory.remove_rule
    rw [if_pos ⟨by omega, by omega⟩]
    simp only [ProceduralMemory.save_rules]
    intro i hi
    have h := reindexFrom_index (pm'.rules.eraseIdx (index - 1).toNat) 1 i hi
    omega

/-- C5 witness: a response parsing to one rule and a removal at index 1 of
a two-rule state both satisfy the cap and contiguity conclusions. -/
theorem proc_rule_cap_and_contiguous_witness :
    parseRules "Do X - because Y" ≠ [] ∧
    (1 : Int) ≥ 1 ∧
    (1 : Int) ≤ (([{ index := 1, instruction := "A", rationale := "B", category := none },
                   { index := 2, instruction := "C", rationale := "D", category := none }] :
                    List ProceduralRule).length : Int) ∧
    (((ProceduralMemory.update { rules := [], file := none } "Do X - because Y").rules.length ≤ 10 ∧
      contiguous (ProceduralMemory.update { rules := [], file := none } "Do X - because Y").rules) ∧
     contiguous (ProceduralMemory.remove_rule
        { rules := [{ index := 1, instruction := "A", rationale := "B", category := none },
                    { index := 2, instruction := "C", rationale := "D", category := none }],
          file := none } 1).rules) :=
  ⟨by decide, by decide, by decide,
    proc_rule_cap_and_contiguous { rules := [], file := none }
      { rules := [{ index := 1, instruction := "A", rationale := "B", category := none },
                  { index := 2, instruction := "C", rationale := "D", category := none }],
        file := none } "Do X - because Y" 1 (by decide) (by decide) (by decide)⟩

/-- C9: `add_rule` appends one rule with index `n + 1` to any `n`-rule
state — including `n >= 10` — and persists the file, yielding `n + 1`
rules; `store` likewise appends unconditionally and persists.  No 10-rule
cap applies to either. -/
theorem proc_add_rule_uncapped (pm : ProceduralMemory) (instruction rationale : String)
    (category : Option String) (r : ProceduralRule) :
    (pm.add_rule instruction rationale category).rules.length = pm.rules.length + 1 ∧
    (pm.add_rule instruction rationale category).rules =
      pm.rules ++ [{ index := pm.rules.length + 1, instruction := instruction,
                     rationale := rationale, category := category }] ∧
    (pm.add_rule instruction rationale category).file =
      some (renderRules (pm.add_rule instruction rationale category).rules) ∧
    (pm.store_rule r).rules = pm.rules ++ [r] ∧
    (pm.store_rule r).file = some (renderRules (pm.store_rule r).rules) := by
  refine ⟨?_, rfl, rfl, rfl, rfl⟩
  simp [ProceduralMemory.add_rule, ProceduralMemory.save_rules]

/-! ## Semantic-memory lemmas -/

theorem formatChunksLoop_eq (cs : List String) :
    ∀ i, formatChunksLoop i cs =
      ((List.enumFrom i cs).filter
          (fun p => !(String.mk (pyStrip p.2.data) == ""))).map
        (fun p => "\nCHUNK " ++ toString (p.1 + 1) ++ ":\n" ++ String.mk (pyStrip p.2.data)) := by
  induction cs with
  | nil => intro i; simp [formatChunksLoop]
  | cons c cs ih =>
      intro i
      unfold formatChunksLoop
      by_cases h : String.mk (pyStrip c.data) = ""
      · rw [if_pos h, ih (i + 1), List.enumFrom_cons, List.filter_cons]
        simp [h]
      · rw [if_neg h, ih (i + 1), List.enumFrom_cons, List.filter_cons]
        simp [h]

theorem formatChunksLoop_all_nonblank (cs : List String) :
    ∀ i, (∀ c ∈ cs, String.mk (pyStrip c.data) ≠ "") →
      formatChunksLoop i cs =
        (List.enumFrom i (cs.map (fun c => String.mk (pyStrip c.data)))).map
          (fun p => "\nCHUNK " ++ toString (p.1 + 1) ++ ":\n" ++ p.2) := by
  induction cs with
  | nil => intro i _; rfl
  | cons c cs ih =>
      intro i h
      unfold formatChunksLoop
      rw [if_neg (h c (by simp))]
      simp only [List.map_cons, List.enumFrom_cons]
      rw [ih (i + 1) (fun x hx => h x (by simp [hx]))]

/-- C7 (amended): `retrieve` returns the empty string (not an error) on an
empty result set; in general each chunk whose content strips to non-empty
is emitted, prefixed with the label `CHUNK k` where `k` is the chunk's
1-based position among all returned results (blank chunks are skipped
without renumbering); when every returned chunk is non-blank this is
exactly the claim's consecutively labelled `CHUNK 1, CHUNK 2, ...`
concatenation of the (stripped) chunk contents. -/
theorem sem_format_chunks (contents : List String) :
    semanticRetrieve [] = "" ∧
    semanticRetrieve contents =
      String.join (((contents.enum).filter
          (fun p => !(String.mk (pyStrip p.2.data) == ""))).map
        (fun p => "\nCHUNK " ++ toString (p.1 + 1) ++ ":\n" ++ String.mk (pyStrip p.2.data))) ∧
    ((∀ c ∈ contents, String.mk (pyStrip c.data) ≠ "") →
      semanticRetrieve contents =
        claimFormatChunks (contents.map (fun c => String.mk (pyStrip c.data)))) := by
  refine ⟨rfl, ?_, ?_⟩
  · unfold semanticRetrieve formatChunks
    rw [formatChunksLoop_eq]
    rfl
  · intro hnb
    unfold semanticRetrieve formatChunks claimFormatChunks
    rw [formatChunksLoop_all_nonblank contents 0 hnb]
    rfl

/-- C7 witness: two non-blank chunks satisfy the general formula and, the
non-blankness premise being discharged, are labelled `CHUNK 1` and
`CHUNK 2` consecutively. -/
theorem sem_format_chunks_witness :
    (∀ c ∈ (["alpha", "beta"] : List String), String.mk (pyStrip c.data) ≠ "") ∧
    (semanticRetrieve [] = "" ∧
     semanticRetrieve ["alpha", "beta"] =
       String.join (((["alpha", "beta"] : List String).enum.filter
           (fun p => !(String.mk (pyStrip p.2.data) == ""))).map
         (fun p => "\nCHUNK " ++ toString (p.1 + 1) ++ ":\n" ++ String.mk (pyStrip p.2.data))) ∧
     semanticRetrieve ["alpha", "beta"] =
       claimFormatChunks ((["alpha", "beta"] : List String).map
         (fun c => String.mk (pyStrip c.data)))) :=
  ⟨by decide,
    (sem_format_chunks ["alpha", "beta"]).1,
    (sem_format_chunks ["alpha", "beta"]).2.1,
    (sem_format_chunks ["alpha", "beta"]).2.2 (by decide)⟩

/-- C7 counterexample: when the first returned chunk strips to empty, the
code skips it but keeps enumerating, so the output's only label is
`CHUNK 2` — not the claim's consecutive `CHUNK 1, CHUNK 2, ...`
concatenation of the chunk contents. -/
theorem sem_format_chunks_counterexample :
    semanticRetrieve ["", "memory"] = "\nCHUNK 2:\nmemory" ∧
    claimFormatChunks ["", "memory"] = "\nCHUNK 1:\n\nCHUNK 2:\nmemory" ∧
    semanticRetrieve ["", "memory"] ≠ claimFormatChunks ["", "memory"] :=
  ⟨by decide, by decide, by decide⟩

/-- C8: for every (arbitrarily ordered) result set with pairwise-distinct
chunk indices, `get_by_source` returns a permutation of it sorted strictly
ascending by `chunk_index`; consequently any two orderings of the same
result set produce the identical output list. -/
theorem sem_get_by_source_sorted (results results' : List SemanticChunk)
    (hnd : (results.map SemanticChunk.chunk_index).Nodup)
    (hperm : results.Perm results') :
    (getBySource results).Perm results ∧
    List.Pairwise (fun a b => a.chunk_index < b.chunk_index) (getBySource results) ∧
    getBySource results = getBySource results' := by
  have hsortperm : (getBySource results).Perm results :=
    List.perm_insertionSort _ results
  have hle : List.Pairwise (fun a b : SemanticChunk => a.chunk_index ≤ b.chunk_index)
      (getBySource results) :=
    List.sorted_insertionSort _ results
  have hne : List.Pairwise (fun a b : SemanticChunk => a.chunk_index ≠ b.chunk_index)
      results := by
    rw [← List.pairwise_map]
    exact hnd
  have hlt : List.Pairwise (fun a b : SemanticChunk => a.chunk_index < b.chunk_index)
      (getBySource results) := by
    have hne' : List.Pairwise (fun a b : SemanticChunk => a.chunk_index ≠ b.chunk_index)
        (getBySource results) :=
      ((hsortperm.pairwise_iff (fun hab => hab.symm)).mpr) hne
    exact (hle.and hne').imp (fun hab => Nat.lt_of_le_of_ne hab.1 hab.2)
  refine ⟨hsortperm, hlt, ?_⟩
  have hnd' : (results'.map SemanticChunk.chunk_index).Nodup :=
    (hperm.map SemanticChunk.chunk_index).nodup hnd
  have hne2 : List.Pairwise (fun a b : SemanticChunk => a.chunk_index ≠ b.chunk_index)
      results' := by
    rw [← List.pairwise_map]
    exact hnd'
  have hsortperm' : (getBySource results').Perm results' :=
    List.perm_insertionSort _ results'
  have hle' : List.Pairwise (fun a b : SemanticChunk => a.chunk_index ≤ b.chunk_index)
      (getBySource results') :=
    List.sorted_insertionSort _ results'
  have hlt' : List.Pairwise (fun a b : SemanticChunk => a.chunk_index < b.chunk_index)
      (getBySource results') := by
    have hne2' : List.Pairwise (fun a b : SemanticChunk => a.chunk_index ≠ b.chunk_index)
        (getBySource results') :=
      ((hsortperm'.pairwise_iff (fun hab => hab.symm)).mpr) hne2
    exact (hle'.and hne2').imp (fun hab => Nat.lt_of_le_of_ne hab.1 hab.2)
  exact List.eq_of_perm_of_sorted
    (hsortperm.trans (hperm.trans hsortperm'.symm)) hlt hlt'

/-- C8 witness: the same two chunks in either order come back identically,
sorted ascending by chunk index. -/
theorem sem_get_by_source_sorted_witness :
    (([⟨"b", "second", "doc.pdf", 2⟩, ⟨"a", "first", "doc.pdf", 0⟩] :
        List SemanticChunk).map SemanticChunk.chunk_index).Nodup ∧
    (([⟨"b", "second", "doc.pdf", 2⟩, ⟨"a", "first", "doc.pdf", 0⟩] :
        List SemanticChunk).Perm
      ([⟨"a", "first", "doc.pdf", 0⟩, ⟨"b", "second", "doc.pdf", 2⟩] :
        List SemanticChunk)) ∧
    ((getBySource [⟨"b", "second", "doc.pdf", 2⟩, ⟨"a", "first", "doc.pdf", 0⟩]).Perm
        [⟨"b", "second", "doc.pdf", 2⟩, ⟨"a", "first", "doc.pdf", 0⟩] ∧
     List.Pairwise (fun a b => a.chunk_index < b.chunk_index)
       (getBySource [⟨"b", "second", "doc.pdf", 2⟩, ⟨"a", "first", "doc.pdf", 0⟩]) ∧
     getBySource [⟨"b", "second", "doc.pdf", 2⟩, ⟨"a", "first", "doc.pdf", 0⟩] =
       getBySource [⟨"a", "first", "doc.pdf", 0⟩, ⟨"b", "second", "doc.pdf", 2⟩]) :=
  ⟨by decide, by decide,
    sem_get_by_source_sorted
      [⟨"b", "second", "doc.pdf", 2⟩, ⟨"a", "first", "doc.pdf", 0⟩]
      [⟨"a", "first", "doc.pdf", 0⟩, ⟨"b", "second", "doc.pdf", 2⟩]
      (by decide) (by decide)⟩

/-- C6: when the reflection completion call and the persistence write both
succeed, a returned JSON object missing `what_worked` (or
`conversation_summary`, `what_to_avoid`, `context_tags`) still yields a
persisted entry whose corresponding field is empty (`""`, or `[]` for the
tags), and `store` returns without raising. -/
theorem epi_reflection_defaulting (complete : String → Except String Reflection)
    (persist : EpisodicMemoryEntry → Except String Unit)
    (messages : List Message) (r : Reflection)
    (hc : complete (formatConversation messages) = Except.ok r)
    (hp : persist (episodicEntry (formatConversation messages) r) = Except.ok ()) :
    episodicStore complete persist messages =
      Except.ok (episodicEntry (formatConversation messages) r) ∧
    (r.what_worked = none →
      (episodicEntry (formatConversation messages) r).what_worked = "") ∧
    (r.conversation_summary = none →
      (episodicEntry (formatConversation messages) r).conversation_summary = "") ∧
    (r.what_to_avoid = none →
      (episodicEntry (formatConversation messages) r).what_to_avoid = "") ∧
    (r.context_tags = none →
      (episodicEntry (formatConversation messages) r).context_tags = []) := by
  refine ⟨?_, ?_, ?_, ?_, ?_⟩
  · simp [episodicStore, hc, hp, bind, Except.bind, pure, Except.pure]
  all_goals intro h
  all_goals simp [episodicEntry, h]

/-- C6 witness: a reflection object missing all four keys stores an entry
with all-empty fields and succeeds. -/
theorem epi_reflection_defaulting_witness :
    ((fun _ => Except.ok (⟨none, none, none, none⟩ : Reflection)) :
        String → Except String Reflection)
      (formatConversation [⟨Role.user, "hi"⟩]) =
      Except.ok (⟨none, none, none, none⟩ : Reflection) ∧
    ((fun _ => Except.ok ()) : EpisodicMemoryEntry → Except String Unit)
      (episodicEntry (formatConversation [⟨Role.user, "hi"⟩]) ⟨none, none, none, none⟩) =
      Except.ok () ∧
    (episodicStore (fun _ => Except.ok ⟨none, none, none, none⟩) (fun _ => Except.ok ())
        [⟨Role.user, "hi"⟩] =
      Except.ok (episodicEntry (formatConversation [⟨Role.user, "hi"⟩])
        ⟨none, none, none, none⟩) ∧
     ((⟨none, none, none, none⟩ : Reflection).what_worked = none →
       (episodicEntry (formatConversation [⟨Role.user, "hi"⟩])
         ⟨none, none, none, none⟩).what_worked = "") ∧
     ((⟨none, none, none, none⟩ : Reflection).conversation_summary = none →
       (episodicEntry (formatConversation [⟨Role.user, "hi"⟩])
         ⟨none, none, none, none⟩).conversation_summary = "") ∧
     ((⟨none, none, none, none⟩ : Reflection).what_to_avoid = none →
       (episodicEntry (formatConversation [⟨Role.user, "hi"⟩])
         ⟨none, none, none, none⟩).what_to_avoid = "") ∧
     ((⟨none, none, none, none⟩ : Reflection).context_tags = none →
       (episodicEntry (formatConversation [⟨Role.user, "hi"⟩])
         ⟨none, none, none, none⟩).context_tags = [])) :=
  ⟨rfl, rfl,
    epi_reflection_defaulting (fun _ => Except.ok ⟨none, none, none, none⟩)
      (fun _ => Except.ok ()) [⟨Role.user, "hi"⟩] ⟨none, none, none, none⟩ rfl rfl⟩

/-! ## Agent lemmas -/

theorem store_messages_of_room (wm : WorkingMemory) (m : Message) (C : Nat)
    (h : wm.max_size = some C) (hC : 1 ≤ C) (hlen : wm.messages.length + 1 ≤ C) :
    (wm.store m).messages = wm.messages ++ [m] ∧ (wm.store m).max_size = some C := by
  obtain ⟨h1, h2⟩ := store_messages_cap wm m C h hC
  refine ⟨?_, h2⟩
  rw [h1]
  have hz : (wm.messages ++ [m]).length - C = 0 := by
    simp only [List.length_append, List.length_cons, List.length_nil]
    omega
  rw [hz, List.drop_zero]

/-- C1 (the code evaluated at its failing inputs): on any turn with room in
working memory, `process_message` appends, in order, the system-context
message, then (only when the semantic retrieval result is non-empty) the
contextual semantic user message, then the literal user message — and then
hands `llm.ainvoke` the un-awaited coroutine returned by the
`get_messages()` call, which the input conversion rejects, so the
completion capability is never invoked on the working-memory sequence, no
assistant reply is appended, and no reply text is returned. -/
theorem agent_process_message_unawaited (complete : List Message → String)
    (episodic : Option EpisodicMemoryEntry) (semantic procedural userInput : String)
    (wm : WorkingMemory) (hms : wm.max_size = some 50)
    (hlen : wm.messages.length + 3 ≤ 50) :
    (processMessage complete episodic semantic procedural userInput wm).2 =
      Except.error invalidInputMsg ∧
    (processMessage complete episodic semantic procedural userInput wm).1.messages =
      wm.messages ++
        [{ role := Role.system, content := createSystemPrompt episodic procedural }] ++
        (if semantic ≠ "" then
          [{ role := Role.user, content := "[SEMANTIC CONTEXT]\n" ++ semantic }]
         else []) ++
        [{ role := Role.user, content := userInput }] := by
  have hC : (1 : Nat) ≤ 50 := by omega
  have hrun : processMessage complete episodic semantic procedural userInput wm =
      ((if semantic ≠ "" then
          (wm.store ⟨Role.system, createSystemPrompt episodic procedural⟩).store
            ⟨Role.user, "[SEMANTIC CONTEXT]\n" ++ semantic⟩
        else
          wm.store ⟨Role.system, createSystemPrompt episodic procedural⟩).store
          ⟨Role.user, userInput⟩,
       Except.error invalidInputMsg) := by
    unfold processMessage WorkingMemory.store_system WorkingMemory.store_semantic
      WorkingMemory.store_user llmAInvoke convertInput WorkingMemory.get_messages_unawaited
    rfl
  rw [hrun]
  refine ⟨rfl, ?_⟩
  obtain ⟨h1m, h1c⟩ := store_messages_of_room wm
    ⟨Role.system, createSystemPrompt episodic procedural⟩ 50 hms hC (by omega)
  by_cases hsem : semantic = ""
  · rw [if_neg (by simp [hsem])]
    obtain ⟨h2m, _⟩ := store_messages_of_room
      (wm.store ⟨Role.system, createSystemPrompt episodic procedural⟩)
      ⟨Role.user, userInput⟩ 50 h1c hC
      (by rw [h1m]; simp only [List.length_append, List.length_cons, List.length_nil]; omega)
    rw [if_neg (by simp [hsem]), h2m, h1m]
    simp
  · rw [if_pos hsem]
    obtain ⟨h2m, h2c⟩ := store_messages_of_room
      (wm.store ⟨Role.system, createSystemPrompt episodic procedural⟩)
      ⟨Role.user, "[SEMANTIC CONTEXT]\n" ++ semantic⟩ 50 h1c hC
      (by rw [h1m]; simp only [List.length_append, List.length_cons, List.length_nil]; omega)
    obtain ⟨h3m, _⟩ := store_messages_of_room
      ((wm.store ⟨Role.system, createSystemPrompt episodic procedural⟩).store
        ⟨Role.user, "[SEMANTIC CONTEXT]\n" ++ semantic⟩)
      ⟨Role.user, userInput⟩ 50 h2c hC
      (by rw [h2m, h1m]
          simp only [List.length_append, List.length_cons, List.length_nil]
          omega)
    rw [if_pos hsem, h3m, h2m, h1m]

/-- C1 witness: a fresh default working memory, a non-empty semantic
context and the user text "Hello" exhibit the three appends followed by the
input-conversion error. -/
theorem agent_process_message_unawaited_witness :
    (WorkingMemory.init (some 50)).max_size = some 50 ∧
    (WorkingMemory.init (some 50)).messages.length + 3 ≤ 50 ∧
    ((processMessage (fun _ => "reply") none "context" "rules" "Hello"
        (WorkingMemory.init (some 50))).2 = Except.error invalidInputMsg ∧
     (processMessage (fun _ => "reply") none "context" "rules" "Hello"
        (WorkingMemory.init (some 50))).1.messages =
       (WorkingMemory.init (some 50)).messages ++
         [{ role := Role.system, content := createSystemPrompt none "rules" }] ++
         (if ("context" : String) ≠ "" then
           [{ role := Role.user, content := "[SEMANTIC CONTEXT]\n" ++ "context" }]
          else []) ++
         [{ role := Role.user, content := "Hello" }]) :=
  ⟨rfl, by decide,
    agent_process_message_unawaited (fun _ => "reply") none "context" "rules" "Hello"
      (WorkingMemory.init (some 50)) rfl (by decide)⟩
